import Mathlib

/-!
Verification of the consensus / block-production core of the harmony node
against its natural-language specification.

The Go sources are shallowly embedded: pure functions become Lean functions,
stateful handlers become functions on explicit state records, machine
integers become Nat (uint64 values are below 2^64; where wraparound matters
it is made explicit), fallible code returns Except/Option, and external
collaborators (Chain Store, Crypto, Mempool, Overlay) are oracles passed as
function parameters or record fields. Go maps are embedded as association
lists in one fixed iteration order; Go slices are embedded by their
contents.
-/

/-! ## Commit payload (consensus/signature/signature.go) -/

/-- Embedding of binary.LittleEndian.PutUint64 into a fresh 8-byte buffer:
byte i of the result is bits 8i..8i+7 of the value. -/
def putUint64LE (v : Nat) : List Nat :=
  [v % 256, v / 2 ^ 8 % 256, v / 2 ^ 16 % 256, v / 2 ^ 24 % 256,
   v / 2 ^ 32 % 256, v / 2 ^ 40 % 256, v / 2 ^ 48 % 256, v / 2 ^ 56 % 256]

/-- The chain configuration, reduced to the one query the commit-payload
code performs on it (params.ChainConfig.IsStaking; the epoch is a big.Int,
hence Int). -/
structure ChainConfig where
  isStaking : Int → Bool

/-- Embedding of signature.ConstructCommitPayload: LE-u64 block number,
then the block hash, then - from the staking fork on - the LE-u64 view id. -/
def constructCommitPayload (chain : ChainConfig) (epoch : Int)
    (blockHash : List Nat) (blockNum viewID : Nat) : List Nat :=
  let blockNumBytes := putUint64LE blockNum
  let commitPayload := blockNumBytes ++ blockHash
  if !(chain.isStaking epoch) then
    commitPayload
  else
    commitPayload ++ putUint64LE viewID

/-! ## Leader onCommit (consensus, src/unnamed/part_002) -/

/-- A parsed COMMIT consensus message (the FBFTMessage fields onCommit
reads; ParseFBFTMessage itself belongs to the Codec collaborator). -/
structure CMsg where
  senderPubkey : Nat
  viewID : Nat
  blockNum : Nat
  blockHash : List Nat
  payload : List Nat
  deriving DecidableEq

/-- The consensus-state fields the leader onCommit handler touches.
The commit signers stand for both the Decider commit-ballot set and the
commit bitmap (SetKey fails exactly when SubmitVote does: the key is not a
committee participant). -/
structure CommitState where
  isLeader : Bool
  blockNum : Nat
  viewID : Nat
  epoch : Nat
  committee : List Nat
  commitSigners : List Nat
  deriving DecidableEq

/-- The oracles onCommit consults: chain config, BLS deserialization and
verification (Crypto collaborator) and the double-sign check over the
existing ballots. -/
structure CommitEnv where
  chain : ChainConfig
  deserializeOk : List Nat → Bool
  verifyHash : Nat → List Nat → List Nat → Bool
  checkDoubleSign : CMsg → Bool

/-- Modelled from the spec: quorum.Decider.IsAllSigsCollected (not under
src/) - true when every committee member has signed. -/
def isAllSigsCollected (committee signers : List Nat) : Bool :=
  committee.all (fun k => signers.contains k)

/-- Modelled from the spec: quorum.Decider.IsQuorumAchieved (not under
src/) - true when the accumulated weight of the phase's signers exceeds
two thirds of the total (unit weights pre-staking). -/
def isQuorumAchieved (committee signers : List Nat) : Bool :=
  2 * committee.length < 3 * (signers.filter (fun k => committee.contains k)).length

/-- Modelled from the spec: quorum.Decider.SubmitVote (not under src/) -
fails if the key is not a committee participant, idempotent on a duplicate
ballot from the same key. -/
def submitVote (committee signers : List Nat) (key : Nat) :
    Except String (List Nat) :=
  if committee.contains key then
    .ok (if signers.contains key then signers else signers ++ [key])
  else
    .error "submitVote: signer not in committee"

/-- Modelled from the spec: consensus.isRightBlockNumAndViewID (not under
src/) - the message must carry the current block number and view id. -/
def isRightBlockNumAndViewID (s : CommitState) (m : CMsg) : Bool :=
  m.blockNum == s.blockNum && m.viewID == s.viewID

/-- Outcome of onCommit when it returns nil: either the message was dropped
before its vote was taken, or the vote was submitted; scheduled records
whether the time.AfterFunc finalization timer for next_block_due was
installed. -/
inductive OCOut where
  | dropped
  | accepted (s : CommitState) (scheduled : Bool)
  deriving DecidableEq

/-- Embedding of the leader onCommit handler (src/unnamed/part_002 lines
199-304). The commit payload is reconstructed with the state's view id and
epoch, the signature is verified against it, the vote is submitted, and
the finalization timer is installed exactly under Decider.IsAllSigsCollected
(the two-thirds-quorum grace-period branch of the source is commented out). -/
def onCommit (env : CommitEnv) (s : CommitState) (m : CMsg) :
    Except String OCOut :=
  if !s.isLeader then .ok .dropped
  else if !(isRightBlockNumAndViewID s m) then .ok .dropped
  else if env.checkDoubleSign m then .ok .dropped
  else if !(env.deserializeOk m.payload) then
    .error "Failed to deserialize bls signature"
  else if
      !(env.verifyHash m.senderPubkey m.payload
        (constructCommitPayload env.chain (Int.ofNat s.epoch)
          m.blockHash m.blockNum s.viewID)) then
    .error "Cannot verify commit message"
  else
    match submitVote s.committee s.commitSigners m.senderPubkey with
    | .error e => .error e
    | .ok signers =>
      .ok (.accepted { s with commitSigners := signers }
            (isAllSigsCollected s.committee signers))

/-! ## Slash record verification (staking/slash/double-sign.go) -/

/-- The header fields the slash verification rules of the spec mention. -/
structure SlashHeader where
  shardID : Nat
  viewID : Nat
  blockNum : Nat
  blockHash : Nat
  blsKeys : List Nat
  deriving DecidableEq

/-- slash.Record: offender key, the two signed headers with their
signatures, and the reporting beneficiary. -/
structure SlashRecord where
  offender : Nat
  signedHeader : SlashHeader
  signedSig : Nat
  doubleSignedHeader : SlashHeader
  doubleSignedSig : Nat
  beneficiary : Nat
  deriving DecidableEq

/-- Embedding of slash.Verify: the source is a stub that returns nil for
every candidate record (marked TODO in the source). -/
def slashVerify (_candidate : SlashRecord) : Option String :=
  none

/-- Modelled from the spec: the verification rules of section 4.6 that
slash.Verify is documented to implement - both headers carry the
offender's BLS public key, each signature verifies over its header
(sigValid is the Crypto oracle), the headers agree on shard id, view id
and block number but differ in block hash, and the beneficiary is a valid
address (validAddress oracle). -/
def slashVerifySpecOk (sigValid : Nat → Nat → SlashHeader → Bool)
    (validAddress : Nat → Bool) (r : SlashRecord) : Bool :=
  r.signedHeader.blsKeys.contains r.offender &&
  r.doubleSignedHeader.blsKeys.contains r.offender &&
  sigValid r.offender r.signedSig r.signedHeader &&
  sigValid r.offender r.doubleSignedSig r.doubleSignedHeader &&
  (r.signedHeader.shardID == r.doubleSignedHeader.shardID) &&
  (r.signedHeader.viewID == r.doubleSignedHeader.viewID) &&
  (r.signedHeader.blockNum == r.doubleSignedHeader.blockNum) &&
  !(r.signedHeader.blockHash == r.doubleSignedHeader.blockHash) &&
  validAddress r.beneficiary

/-! ## Cross-shard receipt pool (node/node.go AddPendingReceipts and
src/unnamed/part_000 proposeReceiptsProof) -/

/-- Result of Validator().ValidateCXReceiptsProof (Chain Store oracle):
nil, an error containing rawdb.MsgNoShardStateFromDB, or any other error. -/
inductive CXValidation where
  | ok
  | noShardState
  | otherErr
  deriving DecidableEq

/-- A single cross-shard receipt; only its target shard is inspected. -/
structure CXReceipt where
  toShardID : Nat
  deriving DecidableEq

/-- A types.CXReceiptsProof together with the oracle answers the embedded
code asks about it: header fields, merkle-proof fields, the receipt list,
whether Blockchain().IsSpent holds and the validation outcome. -/
structure CXProof where
  containsEmptyField : Bool
  headerShardID : Nat
  headerBlockNum : Nat
  headerEpoch : Int
  merkleShardID : Nat
  merkleBlockNum : Nat
  merkleBlockHash : Nat
  receipts : List CXReceipt
  spent : Bool
  validation : CXValidation
  deriving DecidableEq

/-- The node-level configuration the receipt-pool code reads. -/
structure NodeEnv where
  myShardID : Nat
  acceptsCrossTx : Int → Bool
  hasCrossTxFields : Int → Bool
  currentEpoch : Int

/-- utils.GetPendingCXKey: the pool key derived from source shard and
source block number. -/
def pendingCXKey (shardID blockNum : Nat) : Nat × Nat :=
  (shardID, blockNum)

/-- The pending receipt pool: the map pendingCXReceipts as an association
list in iteration order. -/
abbrev CXPool := List ((Nat × Nat) × CXProof)

/-- Key lookup in the pending pool. -/
def poolHasKey (pool : CXPool) (k : Nat × Nat) : Bool :=
  pool.any (fun e => e.1 == k)

/-- DDoS-protection bound on the pending pool (node/node.go). -/
def maxCrossTxnSize : Nat := 4096

/-- Embedding of Node.AddPendingReceipts (node/node.go lines 257-320):
reject empty fields, reject validation failures other than
missing-shard-state, reject receipts sourced from the node's own shard,
reject meaningless epochs, enforce the size limit, drop duplicates, else
insert under the (source shard, source block number) key. -/
def addPendingReceipts (env : NodeEnv) (pool : CXPool) (receipts : CXProof) :
    CXPool :=
  if receipts.containsEmptyField then pool
  else if receipts.validation == .otherErr then pool
  else if env.myShardID == receipts.headerShardID then pool
  else if
      receipts.headerBlockNum == 0 ||
      !(env.acceptsCrossTx receipts.headerEpoch) then pool
  else if maxCrossTxnSize ≤ pool.length then pool
  else if
      poolHasKey pool
        (pendingCXKey receipts.headerShardID receipts.headerBlockNum) then pool
  else pool ++ [(pendingCXKey receipts.headerShardID receipts.headerBlockNum, receipts)]

/-- IncomingReceiptsLimit (src/unnamed/part_000). -/
def incomingReceiptsLimit : Nat := 6000

/-- The comparison function given to sort.SliceStable in
proposeReceiptsProof: ascending by merkle-proof shard id, then by
merkle-proof block number. -/
def cxLess (p q : CXProof) : Bool :=
  p.merkleShardID < q.merkleShardID ||
  (p.merkleShardID == q.merkleShardID && p.merkleBlockNum < q.merkleBlockNum)

/-- Insert x into l in front of the first element it is strictly less than;
ties keep the existing element first. -/
def insertStable (less : α → α → Bool) (x : α) : List α → List α
  | [] => [x]
  | y :: ys => if less x y then x :: y :: ys else y :: insertStable less x ys

/-- Model of Go sort.SliceStable: a stable sort by the given less
function. -/
def sliceStableSort (less : α → α → Bool) (l : List α) : List α :=
  l.foldl (fun acc x => insertStable less x acc) []

/-- The sorted copy of the pool that proposeReceiptsProof builds. -/
def sortCXProofs (l : List CXProof) : List CXProof :=
  sliceStableSort cxLess l

/-- The selection loop of proposeReceiptsProof over the pool in map
iteration order, carrying numProposed, the seen source-block-hash set and
the valid / re-queued accumulators: over-limit proofs are re-queued, spent
proofs and duplicate source-block-hashes are dropped, proofs with a receipt
targeting another shard are skipped, validation errors re-queue
(missing shard state) or drop (any other error), and valid proofs are
collected, numProposed advancing by their receipt count. -/
def proposeLoop (myShard : Nat) :
    Nat → List Nat → List CXProof → List CXProof → List CXProof →
    List CXProof × List CXProof
  | _, _, valid, pendAgain, [] => (valid, pendAgain)
  | numProposed, seen, valid, pendAgain, cxp :: rest =>
    if incomingReceiptsLimit < numProposed then
      proposeLoop myShard numProposed seen valid (pendAgain ++ [cxp]) rest
    else if cxp.spent then
      proposeLoop myShard numProposed seen valid pendAgain rest
    else if seen.contains cxp.merkleBlockHash then
      proposeLoop myShard numProposed seen valid pendAgain rest
    else
      let seen' := seen ++ [cxp.merkleBlockHash]
      if cxp.receipts.any (fun rc => !(rc.toShardID == myShard)) then
        proposeLoop myShard numProposed seen' valid pendAgain rest
      else
        match cxp.validation with
        | .noShardState =>
          proposeLoop myShard numProposed seen' valid (pendAgain ++ [cxp]) rest
        | .otherErr =>
          proposeLoop myShard numProposed seen' valid pendAgain rest
        | .ok =>
          proposeLoop myShard (numProposed + cxp.receipts.length) seen'
            (valid ++ [cxp]) pendAgain rest

/-- Embedding of Node.proposeReceiptsProof (src/unnamed/part_000 lines
991-1069): outside the cross-tx era nothing is proposed; otherwise a
sorted copy of the pool is built (and, as in the source, never used
afterwards - the loop ranges over the map itself) and the selection loop
runs over the pool in iteration order. Returns (proposed proofs, re-queued
proofs); the source rebuilds the pool map from the latter. -/
def proposeReceiptsProof (env : NodeEnv) (pending : List CXProof) :
    List CXProof × List CXProof :=
  if !(env.hasCrossTxFields env.currentEpoch) then ([], pending)
  else
    let _sorted := sortCXProofs pending
    proposeLoop env.myShardID 0 [] [] [] pending

/-- Non-strict ascending order on the merkle (shard id, block number) key. -/
def cxKeyLe (p q : CXProof) : Bool :=
  p.merkleShardID < q.merkleShardID ||
  (p.merkleShardID == q.merkleShardID && p.merkleBlockNum ≤ q.merkleBlockNum)

/-- A list of receipt proofs is ordered ascending by
(source shard, source block number). -/
def orderedByShardBlockNum : List CXProof → Bool
  | [] => true
  | [_] => true
  | p :: q :: rest => cxKeyLe p q && orderedByShardBlockNum (q :: rest)

/-! ## Most-common-hash selection (src/unnamed/part_000 commonHash) -/

/-- One peer's answer to the height probe: the peer id and the reported
shard-chain and beacon-chain tip hashes. -/
structure PeerResp where
  peer : Nat
  shardHash : Nat
  beaconHash : Nat
  deriving DecidableEq

/-- hashCount: a hash together with the peers that reported it. -/
structure HashCount where
  hash : Nat
  peersWithIt : List Nat
  deriving DecidableEq

/-- One step of the counting pass: append the peer to the entry of hash h,
creating the entry if absent (the map read of a missing key yields the
zero hashCount). -/
def addPeerToCounter (counters : List HashCount) (h peerID : Nat) :
    List HashCount :=
  if counters.any (fun c => c.hash == h) then
    counters.map (fun c =>
      if c.hash == h then { c with peersWithIt := c.peersWithIt ++ [peerID] }
      else c)
  else
    counters ++ [{ hash := h, peersWithIt := [peerID] }]

/-- The counting pass of commonHash for one of the two hash projections,
over the responses in iteration order. -/
def buildCounters (key : PeerResp → Nat) (collect : List PeerResp) :
    List HashCount :=
  collect.foldl (fun acc c => addPeerToCounter acc (key c) c.peer) []

/-- The comparison given to sort.SliceStable in commonHash: descending by
number of peers. -/
def hcLess (a b : HashCount) : Bool :=
  b.peersWithIt.length < a.peersWithIt.length

/-- The number of responses reporting hash h under the given projection. -/
def countKey (key : PeerResp → Nat) (h : Nat) (collect : List PeerResp) : Nat :=
  (collect.filter (fun c => key c == h)).length

/-- Embedding of commonHash (src/unnamed/part_000 lines 159-201): count
peers per beacon hash and per shard hash, then stable-sort each list
descending by peer count; the pair is (beacon list, shard list) as in
mostCommonHash. -/
def commonHash (collect : List PeerResp) : List HashCount × List HashCount :=
  let beaconCounters := buildCounters (fun c => c.beaconHash) collect
  let shardCounters := buildCounters (fun c => c.shardHash) collect
  (sliceStableSort hcLess beaconCounters, sliceStableSort hcLess shardCounters)

/-! ## Sync request serving (src/unnamed/part_000 syncRespBlockHandler and
syncRespBlockHeaderHandler) -/

/-- shard.BeaconChainShardID. -/
def beaconChainShardID : Nat := 0

/-- One chain as the sync handlers see it: the latest height and the
lookups by number (blocks and headers abstracted to their identities; the
RLP encoding of the returned singleton list is the Codec collaborator). -/
structure SyncChain where
  latest : Nat
  blockAt : Nat → Nat
  headerAt : Nat → Nat

/-- The two chains a node serves sync requests from. -/
structure SyncNode where
  beacon : SyncChain
  shardChain : SyncChain

/-- The chain selection both handlers perform on the requested shard id. -/
def syncChainFor (node : SyncNode) (shardID : Nat) : SyncChain :=
  if shardID == beaconChainShardID then node.beacon else node.shardChain

/-- errDoNotHaveDesiredBlockNum. -/
def errDoNotHaveDesiredBlockNum : String := "do not have block num"

/-- Embedding of syncRespBlockHandler: error when the requested height is
above the chain's latest block, else the singleton list holding the block
at that height (the source RLP-encodes this list into the response). -/
def syncRespBlockHandler (node : SyncNode) (height shardID : Nat) :
    Except String (List Nat) :=
  if (syncChainFor node shardID).latest < height then
    .error errDoNotHaveDesiredBlockNum
  else .ok [(syncChainFor node shardID).blockAt height]

/-- Embedding of syncRespBlockHeaderHandler: same shape over headers. -/
def syncRespBlockHeaderHandler (node : SyncNode) (height shardID : Nat) :
    Except String (List Nat) :=
  if (syncChainFor node shardID).latest < height then
    .error errDoNotHaveDesiredBlockNum
  else .ok [(syncChainFor node shardID).headerAt height]

/-! ## tryCatchup and FBFT log garbage collection (node/node.go second
compilation unit, lines 882-994) -/

/-- Consensus message types as stored in the FBFT log. -/
inductive FMsgType where
  | announce
  | prepare
  | prepared
  | commit
  | committed
  | viewchange
  | newview
  deriving DecidableEq

/-- An FBFT log message entry. -/
structure FMsg where
  mtype : FMsgType
  blockNum : Nat
  viewID : Nat
  blockHash : Nat
  senderPubkey : Nat
  payload : Nat
  deriving DecidableEq

/-- A candidate block held in the FBFT log. -/
structure FBlock where
  num : Nat
  hash : Nat
  parentHash : Nat
  deriving DecidableEq

/-- The FBFT log: candidate blocks and consensus messages. -/
structure FBFTLog where
  blocks : List FBlock
  messages : List FMsg
  deriving DecidableEq

/-- Modelled from the spec: FBFT log messages_by_type_seq (the log
implementation is not under src/) - the messages of the given type at the
given block number. -/
def getMessagesByTypeSeq (log : FBFTLog) (t : FMsgType) (n : Nat) :
    List FMsg :=
  log.messages.filter (fun m => m.mtype == t && m.blockNum == n)

/-- Modelled from the spec: messages_by_type_seq_hash - further restricted
to the given block hash. -/
def getMessagesByTypeSeqHash (log : FBFTLog) (t : FMsgType) (n h : Nat) :
    List FMsg :=
  log.messages.filter
    (fun m => m.mtype == t && m.blockNum == n && m.blockHash == h)

/-- Modelled from the spec: get_block_by_hash. -/
def getBlockByHash (log : FBFTLog) (h : Nat) : Option FBlock :=
  log.blocks.find? (fun b => b.hash == h)

/-- Modelled from the spec: find_by_max_view_id - a message of maximal
view id among the given ones, none when there are none. -/
def findMessageByMaxViewID (msgs : List FMsg) : Option FMsg :=
  msgs.foldl
    (fun acc m =>
      match acc with
      | none => some m
      | some cur => if cur.viewID < m.viewID then some m else acc)
    none

/-- Modelled from the spec: delete_less_than on the block side - garbage
collect the blocks below the given number. -/
def deleteBlocksLessThan (log : FBFTLog) (n : Nat) : FBFTLog :=
  { log with blocks := log.blocks.filter (fun b => !(b.num < n)) }

/-- Modelled from the spec: delete_less_than on the message side. -/
def deleteMessagesLessThan (log : FBFTLog) (n : Nat) : FBFTLog :=
  { log with messages := log.messages.filter (fun m => !(m.blockNum < n)) }

/-- Consensus mode. -/
inductive CMode where
  | normal
  | viewChanging
  | listening
  deriving DecidableEq

/-- FBFT phase. -/
inductive CPhase where
  | announce
  | prepare
  | commit
  deriving DecidableEq

/-- The consensus-state fields tryCatchup reads and writes. -/
structure CatchupState where
  blockNum : Nat
  viewID : Nat
  blockHash : Nat
  leaderPubKey : Nat
  log : FBFTLog
  currentHeadHash : Nat
  mode : CMode
  phase : CPhase
  deriving DecidableEq

/-- The oracles tryCatchup consults: ChainVerifier.ValidateBody and
PostConsensus.Process (true = nil error). -/
structure CatchupEnv where
  validateBody : FBlock → Bool
  processOk : FBlock → Bool

/-- Go uint64 subtraction of one: wraps around at zero. -/
def goSub1 (n : Nat) : Nat :=
  if n == 0 then 2 ^ 64 - 1 else n - 1

/-- The body of the tryCatchup for-loop. Every path breaks out of the loop
or returns an error, so the loop runs at most once: fetch the committed
messages at the current block number (none: done), insist on exactly one,
find and validate its block, check it extends the current head, look for a
prepared message by max view id (none: done), then advance block number,
view id and leader, re-validate and hand the block to post-consensus
processing (ResetState clears per-round vote state outside this model). -/
def tryCatchupLoop (env : CatchupEnv) (s : CatchupState) :
    Except String CatchupState :=
  match getMessagesByTypeSeq s.log .committed s.blockNum with
  | [] => .ok s
  | _ :: _ :: _ =>
    .error "we should only get one committed message for a given blockNum"
  | [m] =>
    match getBlockByHash s.log m.blockHash with
    | none => .error "Failed finding a valid committed message"
    | some blk =>
      if !(env.validateBody blk) then .error "why could not validate body?"
      else if !(blk.parentHash == s.currentHeadHash) then
        .error "parent block hash not match"
      else
        match
          findMessageByMaxViewID
            (getMessagesByTypeSeqHash s.log .prepared m.blockNum m.blockHash)
        with
        | none => .ok s
        | some _ =>
          if !(env.validateBody blk) then
            .error "block processing after finishing consensus failed"
          else if !(env.processOk blk) then
            .error "post consensus process failed"
          else
            .ok { s with
                  blockHash := 0
                  blockNum := s.blockNum + 1
                  viewID := m.viewID + 1
                  leaderPubKey := m.senderPubkey }

/-- After the loop: on progress (then < now) switchPhase(FBFTAnnounce). -/
def catchupPhaseFix (thenNum : Nat) (s1 : CatchupState) : CatchupState :=
  if thenNum < s1.blockNum then { s1 with phase := .announce } else s1

/-- After the loop: on progress while view changing, back to Normal mode. -/
def catchupModeFix (thenNum : Nat) (s2 : CatchupState) : CatchupState :=
  if thenNum < s2.blockNum && s2.mode == .viewChanging then
    { s2 with mode := .normal }
  else s2

/-- The final garbage collection of tryCatchup: delete log blocks and
messages below now - 1 (uint64 arithmetic as in the source). -/
def catchupGC (s3 : CatchupState) : CatchupState :=
  { s3 with
    log :=
      deleteMessagesLessThan
        (deleteBlocksLessThan s3.log (goSub1 s3.blockNum))
        (goSub1 s3.blockNum) }

/-- Embedding of tryCatchup: run the loop, on progress reset the phase to
announce and leave view-changing mode, then garbage collect the FBFT log
below the new block number minus one. -/
def tryCatchup (env : CatchupEnv) (s : CatchupState) :
    Except String CatchupState :=
  match tryCatchupLoop env s with
  | .error e => .error e
  | .ok s1 => .ok (catchupGC (catchupModeFix s.blockNum (catchupPhaseFix s.blockNum s1)))

/-! ## Probe-target selection (src/unnamed/part_000
syncFromHMYPeersIfNeeded) -/

/-- A Go computation that either produces a value or panics. -/
inductive GoResult (α : Type) where
  | ok (val : α)
  | panicked (msg : String)
  deriving DecidableEq

/-- Embedding of harmonyProtocolPeers: keep the connections that have no
live stream handle yet and that advertise the harmony protocol (the ctrie
lookup and the peerstore protocol query are oracles). -/
def harmonyProtocolPeers (hasStreamHandle supportsProtocol : Nat → Bool)
    (conns : List Nat) : List Nat :=
  conns.filter (fun id => !(hasStreamHandle id) && supportsProtocol id)

/-- Embedding of the probe-target selection step of
syncFromHMYPeersIfNeeded: the source slices hmyConns[:7] with no length
check, which panics when fewer than seven filtered peers are available
(slices are modelled by their contents; spare append capacity, which can
postpone the crash to a nil-interface dereference inside the probe, is not
modelled). -/
def syncProbeTargets (hasStreamHandle supportsProtocol : Nat → Bool)
    (conns : List Nat) : GoResult (List Nat) :=
  if (harmonyProtocolPeers hasStreamHandle supportsProtocol conns).length < 7 then
    .panicked "slice bounds out of range"
  else .ok ((harmonyProtocolPeers hasStreamHandle supportsProtocol conns).take 7)

/-! ## Concrete instances used by witnesses and counterexamples -/

/-- A chain configuration whose staking fork is at epoch 3. -/
def chainConfigC : ChainConfig := ⟨fun e => decide (3 ≤ e)⟩

/-- An onCommit oracle environment where parsing, signature checks pass and
no double sign is detected. -/
def commitEnvC : CommitEnv :=
  ⟨⟨fun _ => true⟩, fun _ => true, fun _ _ _ => true, fun _ => false⟩

/-- A leader at block 1, view 0, committee of four, two commits already in. -/
def commitStateC : CommitState := ⟨true, 1, 0, 0, [0, 1, 2, 3], [0, 1]⟩

/-- A matching COMMIT message from the third committee member. -/
def commitMsgC : CMsg := ⟨2, 0, 1, [1], [9]⟩

/-- A leader at block 1, view 0, committee of two, one commit already in. -/
def commitStateC2 : CommitState := ⟨true, 1, 0, 0, [0, 1], [0]⟩

/-- A matching COMMIT message from the last missing committee member. -/
def commitMsgC2 : CMsg := ⟨1, 0, 1, [1], [9]⟩

/-- A slash header. -/
def slashHeaderA : SlashHeader := ⟨1, 5, 10, 77, [42]⟩

/-- A slash record whose two headers are identical - in particular the two
block hashes agree, so the spec's rules reject it. -/
def slashRecordSameHash : SlashRecord := ⟨42, slashHeaderA, 100, slashHeaderA, 100, 7⟩

/-- A sync-serving node: beacon chain at height 10, shard chain at
height 5, with distinct block and header identities. -/
def syncNodeC : SyncNode :=
  { beacon :=
      { latest := 10, blockAt := fun n => 100 + n, headerAt := fun n => 200 + n },
    shardChain :=
      { latest := 5, blockAt := fun n => 300 + n, headerAt := fun n => 400 + n } }

/-- The grouping invariant of the commonHash counting pass: the counters
hold pairwise-distinct hashes, each counter's peer count is this hash's
number of occurrences among the processed responses, and every processed
response has a counter for its hash. -/
def countersInv (key : PeerResp → Nat) (processed : List PeerResp)
    (acc : List HashCount) : Prop :=
  (acc.map (fun c => c.hash)).Nodup ∧
  (∀ e ∈ acc, e.peersWithIt.length = countKey key e.hash processed) ∧
  (∀ c ∈ processed, ∃ e ∈ acc, e.hash = key c)

/-- Height-probe responses of three peers: peers 1 and 2 agree on shard
hash 5, peers 2 and 3 agree on beacon hash 8. -/
def peerRespsC : List PeerResp := [⟨1, 5, 7⟩, ⟨2, 5, 8⟩, ⟨3, 6, 8⟩]

/-- A catch-up oracle environment where every validation passes. -/
def catchupEnvC : CatchupEnv := ⟨fun _ => true, fun _ => true⟩

/-- A COMMIT log message at block 1. -/
def fmsgLow : FMsg := ⟨.commit, 1, 0, 0, 0, 0⟩

/-- A COMMIT log message at block 2. -/
def fmsgHigh : FMsg := ⟨.commit, 2, 0, 0, 0, 0⟩

/-- A log block at number 1. -/
def fblockLow : FBlock := ⟨1, 5, 4⟩

/-- A log block at number 3. -/
def fblockHigh : FBlock := ⟨3, 6, 5⟩

/-- A consensus state at block 3 whose log still holds entries at blocks 1,
2 and 3 and no committed message at the current number. -/
def catchupStateC : CatchupState :=
  { blockNum := 3, viewID := 0, blockHash := 0, leaderPubKey := 0,
    log := ⟨[fblockLow, fblockHigh], [fmsgLow, fmsgHigh]⟩,
    currentHeadHash := 9, mode := .normal, phase := .commit }

/-- The state after tryCatchup on catchupStateC: entries below block 2 are
garbage collected. -/
def catchupStateC' : CatchupState :=
  { catchupStateC with log := ⟨[fblockHigh], [fmsgHigh]⟩ }

/-! ## Theorems -/

/-- Membership in a stable insertion is membership in the inserted element
or in the original list. -/
theorem mem_insertStable (less : α → α → Bool) (x a : α) (l : List α) :
    a ∈ insertStable less x l ↔ a = x ∨ a ∈ l := by
  induction l with
  | nil => simp [insertStable]
  | cons y ys ih =>
    unfold insertStable
    split
    · simp
    · simp only [List.mem_cons, ih]
      tauto

/-- Membership in the stable sort is membership in the input. -/
theorem mem_sliceStableSort (less : α → α → Bool) (a : α) (l : List α) :
    a ∈ sliceStableSort less l ↔ a ∈ l := by
  suffices h : ∀ acc, a ∈ l.foldl (fun acc x => insertStable less x acc) acc ↔
      a ∈ acc ∨ a ∈ l by
    simpa using h []
  induction l with
  | nil => simp
  | cons x xs ih =>
    intro acc
    rw [List.foldl_cons, ih, mem_insertStable]
    simp
    tauto

/-- Inserting into a list that is nonincreasing by peer count keeps it
nonincreasing. -/
theorem insertStable_pairwise_hc (x : HashCount) (l : List HashCount)
    (hl : l.Pairwise (fun a b => b.peersWithIt.length ≤ a.peersWithIt.length)) :
    (insertStable hcLess x l).Pairwise
      (fun a b => b.peersWithIt.length ≤ a.peersWithIt.length) := by
  induction l with
  | nil => simp [insertStable]
  | cons y ys ih =>
    rw [List.pairwise_cons] at hl
    obtain ⟨hy, hys⟩ := hl
    unfold insertStable
    split
    · rename_i hxy
      simp only [hcLess, decide_eq_true_eq] at hxy
      refine List.Pairwise.cons ?_ (List.Pairwise.cons hy hys)
      intro z hz
      rcases List.mem_cons.mp hz with hzy | hzys
      · subst hzy; omega
      · have := hy z hzys; omega
    · rename_i hxy
      simp only [hcLess, decide_eq_true_eq] at hxy
      refine List.Pairwise.cons ?_ (ih hys)
      intro z hz
      rcases (mem_insertStable hcLess x z ys).mp hz with hzx | hzys
      · subst hzx; omega
      · exact hy z hzys

/-- The stable sort of commonHash yields a list nonincreasing by peer
count. -/
theorem sliceStableSort_pairwise_hc (l : List HashCount) :
    (sliceStableSort hcLess l).Pairwise
      (fun a b => b.peersWithIt.length ≤ a.peersWithIt.length) := by
  suffices h : ∀ acc,
      acc.Pairwise (fun a b => b.peersWithIt.length ≤ a.peersWithIt.length) →
      (l.foldl (fun acc x => insertStable hcLess x acc) acc).Pairwise
        (fun a b => b.peersWithIt.length ≤ a.peersWithIt.length) by
    exact h [] (by simp)
  induction l with
  | nil => intro acc hacc; exact hacc
  | cons x xs ih =>
    intro acc hacc
    exact ih _ (insertStable_pairwise_hc x acc hacc)

/-- C1 -- For every chain configuration, epoch, block hash, block number and
view id, ConstructCommitPayload is the 8-byte little-endian block number
followed by the hash before the staking fork, and that byte string followed
by the 8-byte little-endian view id from the staking fork on. -/
theorem constructCommitPayload_cases (chain : ChainConfig) (epoch : Int)
    (h : List Nat) (n v : Nat) :
    (putUint64LE n).length = 8 ∧ (putUint64LE v).length = 8 ∧
    (chain.isStaking epoch = false →
      constructCommitPayload chain epoch h n v = putUint64LE n ++ h) ∧
    (chain.isStaking epoch = true →
      constructCommitPayload chain epoch h n v =
        (putUint64LE n ++ h) ++ putUint64LE v) := by
  refine ⟨rfl, rfl, ?_, ?_⟩ <;> intro hs <;>
    simp [constructCommitPayload, hs]

/-- Witness for C1 at a concrete post-staking-fork configuration. -/
theorem constructCommitPayload_cases_witness :
    constructCommitPayload chainConfigC 5 [7, 7] 2 9 =
      (putUint64LE 2 ++ [7, 7]) ++ putUint64LE 9 :=
  (constructCommitPayload_cases chainConfigC 5 [7, 7] 2 9).2.2.2 (by decide)

/-- C2 (amended) -- Whenever the leader's onCommit accepts a COMMIT message
(matching block number and view id, no double sign, valid signature, vote
submitted), the finalization timer for next_block_due is installed exactly
when every committee member's commit signature has been collected; there is
no other trigger. -/
theorem onCommit_schedules_iff_all_sigs (env : CommitEnv) (s : CommitState)
    (m : CMsg) (s' : CommitState) (sched : Bool)
    (h : onCommit env s m = .ok (.accepted s' sched)) :
    sched = isAllSigsCollected s'.committee s'.commitSigners := by
  unfold onCommit at h
  repeat' split at h
  all_goals simp_all
  all_goals (obtain ⟨rfl, rfl⟩ := h)
  all_goals rfl

/-- Witness for the amended C2: a commit that completes the committee does
schedule finalization. -/
theorem onCommit_schedules_iff_all_sigs_witness :
    onCommit commitEnvC commitStateC2 commitMsgC2 =
      .ok (.accepted { commitStateC2 with commitSigners := [0, 1] } true) ∧
    true = isAllSigsCollected [0, 1] [0, 1] :=
  ⟨rfl, onCommit_schedules_iff_all_sigs commitEnvC commitStateC2 commitMsgC2
    { commitStateC2 with commitSigners := [0, 1] } true rfl⟩

/-- Counterexample to C2 as stated: an accepted COMMIT that reaches the
two-thirds commit quorum (three of four) without collecting every
signature does not schedule finalization - the degraded-mode quorum
trigger claimed by the spec does not exist in the code (it is commented
out in the source). -/
theorem onCommit_no_degraded_quorum_path :
    onCommit commitEnvC commitStateC commitMsgC =
      .ok (.accepted { commitStateC with commitSigners := [0, 1, 2] } false) ∧
    isQuorumAchieved [0, 1, 2, 3] [0, 1, 2] = true ∧
    isAllSigsCollected [0, 1, 2, 3] [0, 1, 2] = false :=
  ⟨rfl, by decide, by decide⟩

/-- C3 -- slash.Verify is an unimplemented stub: it returns nil on a record
whose two headers carry the same block hash, which the spec's verification
rules reject, so Verify does not return an error on records violating the
claimed conditions. -/
theorem slashVerify_stub_accepts_invalid_record :
    slashVerifySpecOk (fun _ _ _ => true) (fun _ => true) slashRecordSameHash
      = false ∧
    slashVerify slashRecordSameHash = none :=
  ⟨by decide, rfl⟩

/-- A node environment on shard 1 that is inside the cross-tx era. -/
def nodeEnvC : NodeEnv :=
  { myShardID := 1, acceptsCrossTx := fun _ => true,
    hasCrossTxFields := fun _ => true, currentEpoch := 1 }

/-- A valid receipt proof from shard 3 whose single receipt targets
shard 2, not shard 1. -/
def cxForeign : CXProof := ⟨false, 3, 1, 1, 3, 1, 11, [⟨2⟩], false, .ok⟩

/-- A valid receipt proof from shard 3 whose single receipt targets
shard 1. -/
def cxLocal : CXProof := ⟨false, 3, 1, 1, 3, 1, 12, [⟨1⟩], false, .ok⟩

/-- A valid receipt proof with merkle source key (shard 2, block 1). -/
def cxProofA : CXProof := ⟨false, 2, 1, 1, 2, 1, 10, [⟨1⟩], false, .ok⟩

/-- A valid receipt proof with merkle source key (shard 1, block 1). -/
def cxProofB : CXProof := ⟨false, 1, 1, 1, 1, 1, 20, [⟨1⟩], false, .ok⟩

/-- AddPendingReceipts either leaves the pool unchanged or, when the pool
is strictly below the size limit, appends the proof under its source key. -/
theorem addPendingReceipts_cases (env : NodeEnv) (pool : CXPool) (r : CXProof) :
    addPendingReceipts env pool r = pool ∨
    (pool.length < maxCrossTxnSize ∧
      addPendingReceipts env pool r =
        pool ++ [(pendingCXKey r.headerShardID r.headerBlockNum, r)]) := by
  unfold addPendingReceipts
  repeat' split
  all_goals try (left; rfl)
  right
  exact ⟨by omega, rfl⟩

/-- C10 -- AddPendingReceipts keeps the pending pool within
maxCrossTxnSize = 4096 entries: a full (or over-full) pool is left
untouched, and a pool within the bound stays within the bound. -/
theorem addPendingReceipts_size_bound (env : NodeEnv) (pool : CXPool)
    (r : CXProof) :
    (maxCrossTxnSize ≤ pool.length → addPendingReceipts env pool r = pool) ∧
    (pool.length ≤ maxCrossTxnSize →
      (addPendingReceipts env pool r).length ≤ maxCrossTxnSize) := by
  rcases addPendingReceipts_cases env pool r with hsame | ⟨hlt, happ⟩
  · exact ⟨fun _ => hsame, fun hle => by rw [hsame]; exact hle⟩
  · refine ⟨fun hfull => absurd hfull (by omega), fun _ => ?_⟩
    rw [happ]
    simp
    omega

/-- Witness for C10 on the empty pool. -/
theorem addPendingReceipts_size_bound_witness :
    (addPendingReceipts nodeEnvC [] cxForeign).length ≤ maxCrossTxnSize :=
  (addPendingReceipts_size_bound nodeEnvC [] cxForeign).2 (by decide)

/-- Counterexample to C5 as stated: a proof whose receipt targets shard 2
is submitted to a shard-1 node and is nevertheless added to the pending
pool - AddPendingReceipts never inspects ToShardID. -/
theorem addPendingReceipts_accepts_foreign_target :
    cxForeign.receipts.all
        (fun rc => rc.toShardID == nodeEnvC.myShardID) = false ∧
    addPendingReceipts nodeEnvC [] cxForeign = [((3, 1), cxForeign)] :=
  ⟨by decide, by decide⟩

/-- Every proof the selection loop adds to the proposed list either was in
the accumulator already or has all of its receipts targeting this shard. -/
theorem proposeLoop_valid_mem (myShard : Nat) :
    ∀ (l : List CXProof) (numProposed : Nat) (seen : List Nat)
      (valid pendAgain : List CXProof) (p : CXProof),
      p ∈ (proposeLoop myShard numProposed seen valid pendAgain l).1 →
      p ∈ valid ∨ p.receipts.all (fun rc => rc.toShardID == myShard) = true := by
  intro l
  induction l with
  | nil =>
    intro n seen valid pend p hp
    exact Or.inl hp
  | cons cxp rest ih =>
    intro n seen valid pend p hp
    unfold proposeLoop at hp
    repeat' split at hp
    all_goals try exact ih _ _ _ _ p hp
    rcases ih _ _ _ _ p hp with hv | hall
    · rcases List.mem_append.mp hv with hv | hv
      · exact Or.inl hv
      · right
        have hp_eq : p = cxp := by simpa using hv
        subst hp_eq
        simp_all [List.all_eq_true, List.any_eq_true]
    · exact Or.inr hall

/-- C5 (amended) -- AddPendingReceipts does not reject proofs whose
receipts target another shard (see the counterexample); the foreign-target
filter sits in the proposal path instead: no proof containing a receipt
with ToShardID different from this shard is ever returned by
proposeReceiptsProof. -/
theorem proposeReceiptsProof_filters_foreign_targets (env : NodeEnv)
    (pending : List CXProof) (p : CXProof)
    (hp : p ∈ (proposeReceiptsProof env pending).1) :
    ∀ rc ∈ p.receipts, rc.toShardID = env.myShardID := by
  unfold proposeReceiptsProof at hp
  split at hp
  · simp at hp
  · rcases proposeLoop_valid_mem env.myShardID pending 0 [] [] [] p hp with
      hv | hall
    · simp at hv
    · intro rc hrc
      rw [List.all_eq_true] at hall
      simpa using hall rc hrc

/-- Witness for the amended C5: a locally-targeted proof flows through the
proposal loop and every one of its receipts targets this shard. -/
theorem proposeReceiptsProof_filters_foreign_targets_witness :
    cxLocal ∈ (proposeReceiptsProof nodeEnvC [cxLocal]).1 ∧
    ∀ rc ∈ cxLocal.receipts, rc.toShardID = nodeEnvC.myShardID :=
  ⟨by decide,
   proposeReceiptsProof_filters_foreign_targets nodeEnvC [cxLocal] cxLocal
     (by decide)⟩

/-- C4 -- The list proposeReceiptsProof returns follows the pool's map
iteration order, not the (source shard, source block number) order: with
the pool iterating shard 2 before shard 1, the output is unsorted, even
though the sorted copy the function builds (and never uses) would have
been in the claimed order. -/
theorem proposeReceiptsProof_output_not_sorted :
    (proposeReceiptsProof nodeEnvC [cxProofA, cxProofB]).1 =
      [cxProofA, cxProofB] ∧
    orderedByShardBlockNum [cxProofA, cxProofB] = false ∧
    orderedByShardBlockNum (sortCXProofs [cxProofA, cxProofB]) = true := by
  decide

/-- C6 -- Both sync serving handlers return the "do not have block num"
error exactly when the requested height exceeds the latest block of the
requested chain (beacon if shard id 0, the shard chain otherwise);
otherwise they respond with the singleton list holding the block
(respectively header) at that height and no error. -/
theorem syncRespHandlers_spec (node : SyncNode) (height shardID : Nat) :
    ((syncChainFor node shardID).latest < height →
      syncRespBlockHandler node height shardID =
        .error errDoNotHaveDesiredBlockNum ∧
      syncRespBlockHeaderHandler node height shardID =
        .error errDoNotHaveDesiredBlockNum) ∧
    (height ≤ (syncChainFor node shardID).latest →
      syncRespBlockHandler node height shardID =
        .ok [(syncChainFor node shardID).blockAt height] ∧
      syncRespBlockHeaderHandler node height shardID =
        .ok [(syncChainFor node shardID).headerAt height]) := by
  unfold syncRespBlockHandler syncRespBlockHeaderHandler
  constructor <;> intro hc
  · rw [if_pos hc, if_pos hc]
    exact ⟨rfl, rfl⟩
  · rw [if_neg (by omega), if_neg (by omega)]
    exact ⟨rfl, rfl⟩

/-- Witness for C6: height 7 on the beacon chain (latest 10) is served,
height 11 is refused. -/
theorem syncRespHandlers_spec_witness :
    (syncRespBlockHandler syncNodeC 7 0 = .ok [107] ∧
      syncRespBlockHeaderHandler syncNodeC 7 0 = .ok [207]) ∧
    (syncRespBlockHandler syncNodeC 11 0 = .error errDoNotHaveDesiredBlockNum ∧
      syncRespBlockHeaderHandler syncNodeC 11 0 =
        .error errDoNotHaveDesiredBlockNum) :=
  ⟨(syncRespHandlers_spec syncNodeC 7 0).2 (by decide),
   (syncRespHandlers_spec syncNodeC 11 0).1 (by decide)⟩

/-- C9 -- The probe-target slice hmyConns[:7] of syncFromHMYPeersIfNeeded
is taken with no length check: with at least seven filtered
harmony-protocol peers it yields the first seven, with fewer the slice is
out of bounds and the function panics instead of probing the available
peers. -/
theorem syncProbeTargets_requires_seven (hasH supP : Nat → Bool)
    (conns : List Nat) :
    (7 ≤ (harmonyProtocolPeers hasH supP conns).length →
      syncProbeTargets hasH supP conns =
        .ok ((harmonyProtocolPeers hasH supP conns).take 7)) ∧
    ((harmonyProtocolPeers hasH supP conns).length < 7 →
      syncProbeTargets hasH supP conns =
        .panicked "slice bounds out of range") := by
  unfold syncProbeTargets
  constructor <;> intro hc
  · rw [if_neg (by omega)]
  · rw [if_pos hc]

/-- Witness for C9: three connected peers, none filtered out, still fewer
than seven - the slice panics. -/
theorem syncProbeTargets_requires_seven_witness :
    syncProbeTargets (fun _ => false) (fun _ => true) [1, 2, 3] =
      .panicked "slice bounds out of range" :=
  (syncProbeTargets_requires_seven (fun _ => false) (fun _ => true)
    [1, 2, 3]).2 (by decide)

/-- Counting distributes over append. -/
theorem countKey_append (key : PeerResp → Nat) (h : Nat)
    (l1 l2 : List PeerResp) :
    countKey key h (l1 ++ l2) = countKey key h l1 + countKey key h l2 := by
  simp [countKey, List.filter_append]

/-- Counting a single response. -/
theorem countKey_singleton (key : PeerResp → Nat) (h : Nat) (c : PeerResp) :
    countKey key h [c] = if key c == h then 1 else 0 := by
  by_cases hc : (key c == h) = true <;> simp [countKey, hc]

/-- One counting step preserves the grouping invariant. -/
theorem addPeerToCounter_inv (key : PeerResp → Nat) (processed : List PeerResp)
    (acc : List HashCount) (c : PeerResp) (h : countersInv key processed acc) :
    countersInv key (processed ++ [c])
      (addPeerToCounter acc (key c) c.peer) := by
  obtain ⟨hnd, hcount, hcover⟩ := h
  unfold addPeerToCounter
  split
  · rename_i hany
    rw [List.any_eq_true] at hany
    obtain ⟨e0, he0, he0h⟩ := hany
    refine ⟨?_, ?_, ?_⟩
    · have hmap : (acc.map (fun e =>
          if e.hash == key c then
            { e with peersWithIt := e.peersWithIt ++ [c.peer] } else e)).map
            (fun e => e.hash) = acc.map (fun e => e.hash) := by
        rw [List.map_map]
        apply List.map_congr_left
        intro a _
        simp only [Function.comp_apply]
        split <;> rfl
      rw [hmap]
      exact hnd
    · intro e' he'
      rw [List.mem_map] at he'
      obtain ⟨e, he, rfl⟩ := he'
      split
      · rename_i hh
        have heq : e.hash = key c := by simpa using hh
        have h1 : (key c == e.hash) = true := by simp [heq]
        rw [countKey_append, countKey_singleton]
        simp [h1, hcount e he]
      · rename_i hh
        have hne : ¬ e.hash = key c := by simpa using hh
        have h0 : ¬ (key c == e.hash) = true := by
          simpa using fun hx => hne hx.symm
        rw [countKey_append, countKey_singleton]
        simp [h0, hcount e he]
    · intro d hd
      rcases List.mem_append.mp hd with hdp | hdc
      · obtain ⟨e, he, heh⟩ := hcover d hdp
        refine ⟨if e.hash == key c then
            { e with peersWithIt := e.peersWithIt ++ [c.peer] } else e,
          List.mem_map_of_mem _ he, ?_⟩
        split
        · exact heh
        · exact heh
      · have hdc' : d = c := by simpa using hdc
        subst hdc'
        refine ⟨{ e0 with peersWithIt := e0.peersWithIt ++ [d.peer] }, ?_, ?_⟩
        · rw [List.mem_map]
          exact ⟨e0, he0, by rw [if_pos he0h]⟩
        · simpa using he0h
  · rename_i hnone
    have hnone' : ∀ e ∈ acc, (e.hash == key c) = false := by
      intro e he
      by_contra hne
      apply hnone
      rw [List.any_eq_true]
      exact ⟨e, he, by simpa using hne⟩
    refine ⟨?_, ?_, ?_⟩
    · rw [List.map_append]
      apply List.Nodup.append hnd (by simp)
      intro a ha
      rw [List.mem_map] at ha
      obtain ⟨e, he, rfl⟩ := ha
      have := hnone' e he
      simp_all
    · intro e' he'
      rcases List.mem_append.mp he' with he | hnew
      · rw [countKey_append, countKey_singleton]
        have hne : ¬ e'.hash = key c := by simpa using hnone' e' he
        have h0 : ¬ (key c == e'.hash) = true := by
          simpa using fun hx => hne hx.symm
        simp [h0, hcount e' he]
      · have he'eq : e' = ⟨key c, [c.peer]⟩ := by simpa using hnew
        subst he'eq
        rw [countKey_append, countKey_singleton]
        have hzero : countKey key (key c) processed = 0 := by
          by_contra hz
          have hpos : 0 < countKey key (key c) processed :=
            Nat.pos_of_ne_zero hz
          unfold countKey at hpos
          rw [List.length_pos] at hpos
          obtain ⟨d, hdmem⟩ := List.exists_mem_of_ne_nil _ hpos
          obtain ⟨hdp, hdk⟩ := List.mem_filter.mp hdmem
          obtain ⟨e, he, heh⟩ := hcover d hdp
          have hef := hnone' e he
          have : key d = key c := by simpa using hdk
          simp_all
        simp [hzero]
    · intro d hd
      rcases List.mem_append.mp hd with hdp | hdc
      · obtain ⟨e, he, heh⟩ := hcover d hdp
        exact ⟨e, List.mem_append_left _ he, heh⟩
      · have hdc' : d = c := by simpa using hdc
        subst hdc'
        exact ⟨⟨key d, [d.peer]⟩, List.mem_append_right _ (by simp), rfl⟩

/-- The counting pass of commonHash satisfies the grouping invariant: one
counter per reported hash, counting exactly that hash's responses. -/
theorem buildCounters_inv (key : PeerResp → Nat) (collect : List PeerResp) :
    countersInv key collect (buildCounters key collect) := by
  suffices h : ∀ (done pre : List PeerResp) (acc : List HashCount),
      countersInv key pre acc →
      countersInv key (pre ++ done)
        (done.foldl (fun acc c => addPeerToCounter acc (key c) c.peer) acc) by
    have h0 : countersInv key [] [] := ⟨by simp, by simp, by simp⟩
    have := h collect [] [] h0
    simpa [buildCounters] using this
  intro done
  induction done with
  | nil =>
    intro pre acc hacc
    simpa using hacc
  | cons c cs ih =>
    intro pre acc hacc
    rw [List.foldl_cons]
    have := ih (pre ++ [c]) _ (addPeerToCounter_inv key pre acc c hacc)
    simpa [List.append_assoc] using this

/-- One side of commonHash: for a nonempty response set, the sorted counter
list is nonempty, nonincreasing by peer count, and its first entry counts
its own hash exactly and no hash is reported by more peers. -/
theorem commonHashSide (key : PeerResp → Nat) (collect : List PeerResp)
    (hne : collect ≠ []) :
    sliceStableSort hcLess (buildCounters key collect) ≠ [] ∧
    (sliceStableSort hcLess (buildCounters key collect)).Pairwise
      (fun a b => b.peersWithIt.length ≤ a.peersWithIt.length) ∧
    ∀ hd t, sliceStableSort hcLess (buildCounters key collect) = hd :: t →
      hd.peersWithIt.length = countKey key hd.hash collect ∧
      ∀ h, countKey key h collect ≤ hd.peersWithIt.length := by
  obtain ⟨hnd, hcount, hcover⟩ := buildCounters_inv key collect
  refine ⟨?_, sliceStableSort_pairwise_hc _, ?_⟩
  · obtain ⟨c, hc⟩ := List.exists_mem_of_ne_nil collect hne
    obtain ⟨e, he, _⟩ := hcover c hc
    intro hemp
    have hmem : e ∈ sliceStableSort hcLess (buildCounters key collect) :=
      (mem_sliceStableSort _ _ _).mpr he
    rw [hemp] at hmem
    simp at hmem
  · intro hd t hsort
    have hhd_mem : hd ∈ buildCounters key collect := by
      have hmem : hd ∈ sliceStableSort hcLess (buildCounters key collect) := by
        rw [hsort]; simp
      exact (mem_sliceStableSort _ _ _).mp hmem
    refine ⟨hcount hd hhd_mem, ?_⟩
    intro hsh
    by_cases hz : countKey key hsh collect = 0
    · omega
    · have hpos : 0 < countKey key hsh collect := Nat.pos_of_ne_zero hz
      unfold countKey at hpos
      rw [List.length_pos] at hpos
      obtain ⟨d, hdmem⟩ := List.exists_mem_of_ne_nil _ hpos
      obtain ⟨hdp, hdk⟩ := List.mem_filter.mp hdmem
      obtain ⟨e, he, heh⟩ := hcover d hdp
      have hkey : key d = hsh := by simpa using hdk
      have hecount : e.peersWithIt.length = countKey key hsh collect := by
        rw [← hkey, ← heh]
        exact hcount e he
      have hemem : e ∈ hd :: t := by
        rw [← hsort]
        exact (mem_sliceStableSort _ _ _).mpr he
      have hpw := sliceStableSort_pairwise_hc (buildCounters key collect)
      rw [hsort, List.pairwise_cons] at hpw
      rcases List.mem_cons.mp hemem with rfl | ht
      · omega
      · have := hpw.1 e ht
        omega

/-- C7 -- For every nonempty set of height-probe responses, commonHash
returns the beacon and shard hash-count lists nonempty and sorted
nonincreasing by peer count, grouping is exact (the first entry's count is
the number of peers reporting its hash), and no hash is reported by more
peers than the first entry's - the head of each list is a most-common
hash. -/
theorem commonHash_groups_and_sorts (collect : List PeerResp)
    (hne : collect ≠ []) :
    ((commonHash collect).1 ≠ [] ∧ (commonHash collect).2 ≠ []) ∧
    ((commonHash collect).1.Pairwise
        (fun a b => b.peersWithIt.length ≤ a.peersWithIt.length) ∧
      (commonHash collect).2.Pairwise
        (fun a b => b.peersWithIt.length ≤ a.peersWithIt.length)) ∧
    (∀ hd t, (commonHash collect).1 = hd :: t →
      hd.peersWithIt.length = countKey (fun c => c.beaconHash) hd.hash collect ∧
      ∀ h, countKey (fun c => c.beaconHash) h collect ≤
        hd.peersWithIt.length) ∧
    (∀ hd t, (commonHash collect).2 = hd :: t →
      hd.peersWithIt.length = countKey (fun c => c.shardHash) hd.hash collect ∧
      ∀ h, countKey (fun c => c.shardHash) h collect ≤
        hd.peersWithIt.length) := by
  obtain ⟨hb1, hb2, hb3⟩ := commonHashSide (fun c => c.beaconHash) collect hne
  obtain ⟨hs1, hs2, hs3⟩ := commonHashSide (fun c => c.shardHash) collect hne
  exact ⟨⟨hb1, hs1⟩, ⟨hb2, hs2⟩, hb3, hs3⟩

/-- Witness for C7 on three concrete responses. -/
theorem commonHash_groups_and_sorts_witness :
    (commonHash peerRespsC).1 ≠ [] ∧ (commonHash peerRespsC).2 ≠ [] :=
  (commonHash_groups_and_sorts peerRespsC (by decide)).1

/-- The tryCatchup loop never modifies the FBFT log. -/
theorem tryCatchupLoop_log (env : CatchupEnv) (s t : CatchupState)
    (h : tryCatchupLoop env s = .ok t) : t.log = s.log := by
  unfold tryCatchupLoop at h
  repeat' split at h
  all_goals simp_all
  all_goals rw [← h]

/-- The phase reset after catch-up does not touch the log. -/
theorem catchupPhaseFix_log (n : Nat) (t : CatchupState) :
    (catchupPhaseFix n t).log = t.log := by
  unfold catchupPhaseFix
  split <;> rfl

/-- The mode reset after catch-up does not touch the log. -/
theorem catchupModeFix_log (n : Nat) (t : CatchupState) :
    (catchupModeFix n t).log = t.log := by
  unfold catchupModeFix
  split <;> rfl

/-- The garbage-collection step keeps the block number. -/
theorem catchupGC_blockNum (t : CatchupState) :
    (catchupGC t).blockNum = t.blockNum := rfl

/-- The garbage-collection step filters the log messages at now - 1. -/
theorem catchupGC_log_messages (t : CatchupState) :
    (catchupGC t).log.messages =
      t.log.messages.filter (fun m => !(m.blockNum < goSub1 t.blockNum)) := rfl

/-- The garbage-collection step filters the log blocks at now - 1. -/
theorem catchupGC_log_blocks (t : CatchupState) :
    (catchupGC t).log.blocks =
      t.log.blocks.filter (fun b => !(b.num < goSub1 t.blockNum)) := rfl

/-- What the final garbage collection guarantees: entries below
block number - 1 are gone, entries at or above it are retained. -/
theorem catchupGC_spec (t : CatchupState) (hpos : 1 ≤ t.blockNum) :
    (∀ m ∈ (catchupGC t).log.messages, t.blockNum - 1 ≤ m.blockNum) ∧
    (∀ b ∈ (catchupGC t).log.blocks, t.blockNum - 1 ≤ b.num) ∧
    (∀ m ∈ t.log.messages, t.blockNum - 1 ≤ m.blockNum →
      m ∈ (catchupGC t).log.messages) ∧
    (∀ b ∈ t.log.blocks, t.blockNum - 1 ≤ b.num →
      b ∈ (catchupGC t).log.blocks) := by
  have hsub : goSub1 t.blockNum = t.blockNum - 1 := by
    unfold goSub1
    have h0 : (t.blockNum == 0) = false := by
      simp
      omega
    rw [h0]
    simp
  refine ⟨?_, ?_, ?_, ?_⟩
  · intro m hm
    rw [catchupGC_log_messages, hsub, List.mem_filter] at hm
    have := hm.2
    simp at this
    omega
  · intro b hb
    rw [catchupGC_log_blocks, hsub, List.mem_filter] at hb
    have := hb.2
    simp at this
    omega
  · intro m hm hge
    rw [catchupGC_log_messages, hsub, List.mem_filter]
    refine ⟨hm, ?_⟩
    simp
    omega
  · intro b hb hge
    rw [catchupGC_log_blocks, hsub, List.mem_filter]
    refine ⟨hb, ?_⟩
    simp
    omega

/-- C8 -- After every error-free run of tryCatchup leaving committed block
number n at least 1, the FBFT log holds no block and no message below
n - 1, and every pre-run entry at n - 1 or later is retained. -/
theorem tryCatchup_gc (env : CatchupEnv) (s s' : CatchupState)
    (hok : tryCatchup env s = .ok s') (hpos : 1 ≤ s'.blockNum) :
    (∀ m ∈ s'.log.messages, s'.blockNum - 1 ≤ m.blockNum) ∧
    (∀ b ∈ s'.log.blocks, s'.blockNum - 1 ≤ b.num) ∧
    (∀ m ∈ s.log.messages, s'.blockNum - 1 ≤ m.blockNum →
      m ∈ s'.log.messages) ∧
    (∀ b ∈ s.log.blocks, s'.blockNum - 1 ≤ b.num → b ∈ s'.log.blocks) := by
  unfold tryCatchup at hok
  cases hl : tryCatchupLoop env s with
  | error e =>
    rw [hl] at hok
    exact absurd hok (by simp)
  | ok s1 =>
    rw [hl] at hok
    simp only [Except.ok.injEq] at hok
    subst hok
    have hlog : s1.log = s.log := tryCatchupLoop_log env s s1 hl
    have htlog :
        (catchupModeFix s.blockNum (catchupPhaseFix s.blockNum s1)).log =
          s.log := by
      rw [catchupModeFix_log, catchupPhaseFix_log, hlog]
    rw [catchupGC_blockNum] at hpos
    obtain ⟨h1, h2, h3, h4⟩ :=
      catchupGC_spec (catchupModeFix s.blockNum (catchupPhaseFix s.blockNum s1))
        hpos
    refine ⟨?_, ?_, ?_, ?_⟩
    · intro m hm
      rw [catchupGC_blockNum]
      exact h1 m hm
    · intro b hb
      rw [catchupGC_blockNum]
      exact h2 b hb
    · intro m hm hge
      rw [catchupGC_blockNum] at hge
      refine h3 m ?_ hge
      rw [htlog]
      exact hm
    · intro b hb hge
      rw [catchupGC_blockNum] at hge
      refine h4 b ?_ hge
      rw [htlog]
      exact hb

/-- Witness for C8: a catch-up at block 3 with stale log entries at blocks
1 and 2; the run deletes the block-1 entries and keeps those at 2 and 3. -/
theorem tryCatchup_gc_witness :
    (∀ m ∈ catchupStateC'.log.messages,
      catchupStateC'.blockNum - 1 ≤ m.blockNum) ∧
    (∀ b ∈ catchupStateC'.log.blocks, catchupStateC'.blockNum - 1 ≤ b.num) ∧
    (∀ m ∈ catchupStateC.log.messages,
      catchupStateC'.blockNum - 1 ≤ m.blockNum →
        m ∈ catchupStateC'.log.messages) ∧
    (∀ b ∈ catchupStateC.log.blocks,
      catchupStateC'.blockNum - 1 ≤ b.num → b ∈ catchupStateC'.log.blocks) :=
  tryCatchup_gc catchupEnvC catchupStateC catchupStateC' rfl (by decide)
